import Mathlib

/-!
# Verification of the survey filter-and-distribution engine

Shallow embedding of the core of the survey analysis tool
(`survey_tool/analyzer.py`, `survey_tool/data_loader.py`,
`survey_tool/filter.py`, `survey_tool/distribution.py`) and proofs of the
spec's claims about it.

Modelling conventions:
* a cell is `Option Value` (`none` models a pandas missing value, i.e.
  `pd.isna`); a `Value` is either a string or a number (numbers are
  modelled by `Nat`; Python `str()` of a number renders its digits);
* a dataframe (`View`) is a list of column names plus a list of rows,
  each row a list of cells indexed positionally by column;
* Python string operations `split(';')`, `strip()`, `';' in s` are
  embedded as explicit functions over the character list `String.data`;
* Python float `round(x, 2)` is modelled as exact rational rounding to
  hundredths (`pyRound2`); the same function is used on the code side and
  the spec side, so no claim depends on the floating-point rounding mode;
* exceptions (`ValueError`) are modelled with `Except SurveyError`;
  states are modelled post-load, so the `No data loaded` guard is
  unreachable and only `unknownQuestion` arises.
-/

/-- A scalar cell value: a string, or a numeric value (`str`/number are the
only cell types exercised by the tool's logic; `isinstance(value, str)`
distinguishes them). -/
inductive Value where
  | str (s : String)
  | num (n : Nat)
deriving DecidableEq, Repr

/-- A cell of the dataframe; `none` is a missing value (`pd.isna`). -/
abbrev Cell := Option Value

/-- A cell that is a string or missing (not numeric). -/
def isStrCell : Cell → Bool
  | some (Value.num _) => false
  | _ => true

/-- An in-memory dataframe: named columns and positional rows. -/
structure View where
  cols : List String
  rows : List (List Cell)
deriving DecidableEq, Repr

/-- Cell of row `r` in the column at index `i` (missing if the row is short). -/
def cellAt (r : List Cell) (i : Nat) : Cell := r.getD i none

/-- `df[q]`: the column of `q` as a list of cells, one per row. -/
def View.column (v : View) (q : String) : List Cell :=
  v.rows.map (fun r => cellAt r (v.cols.indexOf q))

/-- The decimal digit character for `d < 10` (mirrors Python's rendering of
a number's digits). -/
def digitCh : Nat → Char
  | 0 => '0' | 1 => '1' | 2 => '2' | 3 => '3' | 4 => '4'
  | 5 => '5' | 6 => '6' | 7 => '7' | 8 => '8' | 9 => '9'
  | _ => '*'

/-- Digit accumulation for `natStr`, structural on a fuel argument so that
it evaluates by kernel reduction. -/
def natCharsAux : Nat → Nat → List Char → List Char
  | 0, _, acc => acc
  | fuel + 1, n, acc =>
    let acc' := digitCh (n % 10) :: acc
    if n < 10 then acc' else natCharsAux fuel (n / 10) acc'

/-- Python `str(n)` for a number `n`. -/
def natStr (n : Nat) : String := ⟨natCharsAux (n + 1) n []⟩

/-- Python `str(value)`: strings render as themselves, numbers as digits. -/
def Value.toText : Value → String
  | .str s => s
  | .num n => natStr n

/-- Python `';' in s`. -/
def hasSemi (s : String) : Bool := s.data.contains ';'

/-- Splitting a character list on `';'` (each separator starts a new piece;
empty pieces are kept, as with Python `s.split(';')`). -/
def splitChAux : List Char → List Char → List (List Char)
  | [], acc => [acc.reverse]
  | c :: rest, acc =>
    if c = ';' then acc.reverse :: splitChAux rest []
    else splitChAux rest (c :: acc)

/-- Python `s.split(';')`. -/
def splitSemi (s : String) : List String :=
  (splitChAux s.data []).map (fun cs => ⟨cs⟩)

/-- Whitespace for Python `str.strip()` (ASCII whitespace suffices here). -/
def isWS (c : Char) : Bool := c = ' ' || c = '\t' || c = '\n' || c = '\r'

/-- Python `s.strip()`: drop leading and trailing whitespace. -/
def pyStrip (s : String) : String :=
  ⟨((s.data.dropWhile isWS).reverse.dropWhile isWS).reverse⟩

/-- The tokenization used by `SurveyAnalyzer._get_multiple_choice_distribution`
(and, in membership form, by `SurveyAnalyzer._option_in_multiple_choice`):
missing cells produce no token; a string containing `';'` splits into
stripped pieces; any other value yields its `str()` as the single token. -/
def splitTokens : Cell → List String
  | none => []
  | some (Value.str s) =>
      if hasSemi s then (splitSemi s).map pyStrip else [s]
  | some (Value.num n) => [natStr n]

/-- The Answer Parser `split` contract exactly as the spec words it: empty
for a missing value; if the stringified value contains the delimiter,
the trimmed `';'`-pieces (empties kept); otherwise the single stringified,
untrimmed value. Stated from the spec for comparison with `splitTokens`. -/
def specSplit : Cell → List String
  | none => []
  | some v =>
      if hasSemi v.toText then (splitSemi v.toText).map pyStrip
      else [v.toText]

/-- `SurveyAnalyzer._option_in_multiple_choice(value, option)`: false on a
missing value; token membership after split-and-strip when `';'` occurs in
`str(value)`; plain equality of `str(value)` otherwise. -/
def optionInMultipleChoice (cell : Cell) (opt : String) : Bool :=
  match cell with
  | none => false
  | some v =>
      if hasSemi v.toText then ((splitSemi v.toText).map pyStrip).contains opt
      else v.toText == opt

/-- Pandas `df[q] == option` on one cell, with `option` a Python string:
string cells compare their text, numeric and missing cells never equal a
string. -/
def cellEq (cell : Cell) (opt : String) : Bool :=
  match cell with
  | some (Value.str s) => s == opt
  | _ => false

/-- `DataLoader.is_multiple_choice(question)` on a loaded view: false when
the question is not a column; otherwise true iff some non-missing *string*
value of the column contains `';'`. -/
def is_multiple_choice (v : View) (q : String) : Bool :=
  if q ∈ v.cols then
    (v.column q).any (fun cell =>
      match cell with
      | some (Value.str s) => hasSemi s
      | _ => false)
  else false

/-- The classifier contract as the spec words it: true iff some non-missing
value of the column, **when stringified**, contains the delimiter. Stated
from the spec for comparison with `is_multiple_choice`. -/
def specIsMulti (v : View) (q : String) : Bool :=
  (v.column q).any (fun cell =>
    match cell with
    | some w => hasSemi w.toText
    | none => false)

lemma digitCh_ne_semi (d : Nat) (h : d < 10) : digitCh d ≠ ';' := by
  interval_cases d <;> decide

lemma semi_not_mem_natCharsAux (fuel n : Nat) (acc : List Char)
    (h : ';' ∉ acc) : ';' ∉ natCharsAux fuel n acc := by
  induction fuel generalizing n acc with
  | zero => simpa [natCharsAux] using h
  | succ fuel ih =>
    have hd : digitCh (n % 10) ≠ ';' :=
      digitCh_ne_semi _ (Nat.mod_lt _ (by omega))
    simp only [natCharsAux]
    split
    · simp_all [eq_comm]
    · exact ih _ _ (by simp_all [eq_comm])

lemma hasSemi_natStr (n : Nat) : hasSemi (natStr n) = false := by
  have h := semi_not_mem_natCharsAux (n + 1) n [] (by simp)
  simp only [hasSemi, natStr]
  simpa [List.contains] using fun hc => h (List.elem_iff.mp hc)

/-- Errors raised by the analyzer (`ValueError` in the source). -/
inductive SurveyError where
  | noDataLoaded
  | unknownQuestion (q : String)
deriving DecidableEq, Repr

/-- `SurveyAnalyzer` + `DataLoader` state after a successful load:
`original` is `DataLoader.original_df` (set once at load), `current` is
`DataLoader.df`, `filters` is the analyzer's insertion-ordered
`{question: option}` dict. -/
structure AnalyzerState where
  original : View
  current : View
  filters : List (String × String)
deriving DecidableEq, Repr

/-- Python dict update `filters[question] = option`: overwrite in place if
the key exists (keeping its position), else append. -/
def storeFilter : List (String × String) → String → String → List (String × String)
  | [], q, opt => [(q, opt)]
  | (q', o') :: rest, q, opt =>
    if q' = q then (q, opt) :: rest else (q', o') :: storeFilter rest q opt

/-- `SurveyAnalyzer.filter_respondents(question, option)`: raises
`unknownQuestion` when the question is not a column of the current view;
otherwise records the filter, classifies the question against the current
view, keeps the rows matching the option (token membership for a
multi-answer column, pandas `==` for a single-answer one) and returns the
new row count together with the new state. -/
def SurveyAnalyzer.filter_respondents (s : AnalyzerState) (q opt : String) :
    Except SurveyError (Nat × AnalyzerState) :=
  if q ∈ s.current.cols then
    let fs := storeFilter s.filters q opt
    let idx := s.current.cols.indexOf q
    let newRows :=
      if is_multiple_choice s.current q then
        s.current.rows.filter (fun r => optionInMultipleChoice (cellAt r idx) opt)
      else
        s.current.rows.filter (fun r => cellEq (cellAt r idx) opt)
    Except.ok (newRows.length,
      { original := s.original
        current := { cols := s.current.cols, rows := newRows }
        filters := fs })
  else Except.error (SurveyError.unknownQuestion q)

/-- One `filter` command of a CLI session: the CLI catches the exception,
so a failing call leaves the state unchanged. -/
def runStep (s : AnalyzerState) (qo : String × String) : AnalyzerState :=
  match SurveyAnalyzer.filter_respondents s qo.1 qo.2 with
  | Except.ok p => p.2
  | Except.error _ => s

/-- A session: a sequence of `filter` commands applied in order. -/
def runFilters (s : AnalyzerState) (ops : List (String × String)) : AnalyzerState :=
  ops.foldl runStep s

/-- `SurveyAnalyzer.reset_filters()` + `DataLoader.reset_data()`: clear the
filter dict and restore the current view from the original. -/
def SurveyAnalyzer.reset_filters (s : AnalyzerState) : AnalyzerState :=
  { original := s.original, current := s.original, filters := [] }

/-- One entry of a distribution: a token's count and percentage. -/
structure DistEntry where
  count : Nat
  percentage : ℚ
deriving DecidableEq, Repr

/-- Python `round(x, 2)` on the exact rational value (rounding to nearest
hundredth; the float round-half-even mode is abstracted to exact rational
rounding, used identically on the code side and the spec side). -/
def pyRound2 (x : ℚ) : ℚ := (round (x * 100) : ℤ) / 100

/-- A distribution entry as both distribution paths build it:
`{'count': c, 'percentage': round((c / total) * 100, 2)}`. -/
def mkEntry (c total : Nat) : DistEntry :=
  { count := c, percentage := pyRound2 ((c : ℚ) * 100 / total) }

/-- Pandas `df[q].value_counts()`: each distinct non-missing value with its
number of occurrences. (Pandas returns them ordered by descending count;
the order is not modelled — no property proved here depends on it.) -/
def valueCounts (cells : List Cell) : List (Value × Nat) :=
  let vs := cells.filterMap id
  vs.dedup.map (fun v => (v, vs.count v))

/-- Python dict assignment `d[k] = e` on an insertion-ordered association
list: replace in place if the key exists, else append. -/
def insertReplace : List (String × DistEntry) → String → DistEntry → List (String × DistEntry)
  | [], k, e => [(k, e)]
  | (k', e') :: rest, k, e =>
    if k' = k then (k, e) :: rest else (k', e') :: insertReplace rest k e

/-- `SurveyAnalyzer._get_single_choice_distribution`: one dict entry per
`value_counts` row, keyed by `str(value)` (distinct raw values whose
`str()` collide overwrite each other). -/
def singleChoiceDist (cells : List Cell) (total : Nat) : List (String × DistEntry) :=
  (valueCounts cells).foldl
    (fun acc p => insertReplace acc p.1.toText (mkEntry p.2 total)) []

/-- Python `option_counts[option] = option_counts.get(option, 0) + 1` on an
insertion-ordered association list. -/
def bumpCount : List (String × Nat) → String → List (String × Nat)
  | [], k => [(k, 1)]
  | (k', c) :: rest, k =>
    if k' = k then (k', c + 1) :: rest else (k', c) :: bumpCount rest k

/-- The token counting loop of
`SurveyAnalyzer._get_multiple_choice_distribution`: for each non-missing
cell, bump each token of a `';'`-containing string (stripped), or the
single `str(value)` otherwise. -/
def multiCounts (cells : List Cell) : List (String × Nat) :=
  cells.foldl
    (fun acc cell =>
      match cell with
      | none => acc
      | some (Value.str s) =>
          if hasSemi s then ((splitSemi s).map pyStrip).foldl bumpCount acc
          else bumpCount acc s
      | some (Value.num n) => bumpCount acc (natStr n)) []

/-- `SurveyAnalyzer._get_multiple_choice_distribution`: the token counts
converted to distribution entries (keys are already distinct). -/
def multiChoiceDist (cells : List Cell) (total : Nat) : List (String × DistEntry) :=
  (multiCounts cells).map (fun p => (p.1, mkEntry p.2 total))

/-- `SurveyAnalyzer.get_distribution(question)`: raises `unknownQuestion`
when the question is not a column; otherwise takes `total = len(df)` (the
row count of the current view) and dispatches on the classification. -/
def SurveyAnalyzer.get_distribution (s : AnalyzerState) (q : String) :
    Except SurveyError (List (String × DistEntry)) :=
  if q ∈ s.current.cols then
    let total := s.current.rows.length
    if is_multiple_choice s.current q then
      Except.ok (multiChoiceDist (s.current.column q) total)
    else
      Except.ok (singleChoiceDist (s.current.column q) total)
  else Except.error (SurveyError.unknownQuestion q)

/-- `SurveyFilter` state (`filter.py`): original copy, current frame, and
the list of applied `(question, option)` pairs. -/
structure SurveyFilterState where
  original : View
  current : View
  applied : List (String × String)
deriving DecidableEq, Repr

/-- The row predicate `match` of `SurveyFilter.apply_filter`: false on a
missing value; for a string, membership of the option among the stripped
`';'`-pieces (the string is split and stripped even when it contains no
`';'`); for any other value, Python `val == option`, false against a
string option. -/
def SurveyFilter.matchCell (cell : Cell) (opt : String) : Bool :=
  match cell with
  | none => false
  | some (Value.str s) => ((splitSemi s).map pyStrip).contains opt
  | some (Value.num _) => false

/-- `SurveyFilter.apply_filter(question, option)`: silently returns with the
state unchanged when the question is not a column; otherwise keeps the
matching rows and appends the pair to the applied list. Returns no count. -/
def SurveyFilter.apply_filter (s : SurveyFilterState) (q opt : String) :
    SurveyFilterState :=
  if q ∈ s.current.cols then
    { original := s.original
      current :=
        { cols := s.current.cols
          rows := s.current.rows.filter (fun r =>
            SurveyFilter.matchCell (cellAt r (s.current.cols.indexOf q)) opt) }
      applied := s.applied ++ [(q, opt)] }
  else s

/-- `counts[key] = counts.get(key, 0) + 1` keyed by a raw `Value`
(`distribution.py` uses stripped string tokens as keys for string cells and
the raw value for other cells). -/
def bumpV : List (Value × Nat) → Value → List (Value × Nat)
  | [], k => [(k, 1)]
  | (k', c) :: rest, k =>
    if k' = k then (k', c + 1) :: rest else (k', c) :: bumpV rest k

/-- The counting loop of `SurveyDistribution.get_distribution`: every
string cell is split on `';'` and stripped (whether or not it contains
`';'`), each token bumps its count and the running `total`; any other
non-missing cell bumps its raw value's count and `total`. So `total` is
the number of token occurrences, not the number of rows. -/
def SurveyDistribution.countsTotal (cells : List Cell) : List (Value × Nat) × Nat :=
  cells.foldl
    (fun acc cell =>
      match cell with
      | none => acc
      | some (Value.str s) =>
          ((splitSemi s).map pyStrip).foldl
            (fun a t => (bumpV a.1 (Value.str t), a.2 + 1)) acc
      | some (Value.num n) => (bumpV acc.1 (Value.num n), acc.2 + 1)) ([], 0)

/-- The percentages printed by `SurveyDistribution.print_distribution`:
`100 * count / total if total else 0` for each counted token, where
`total` comes from `SurveyDistribution.countsTotal`. (The descending-count
display sort is presentational and not modelled.) -/
def SurveyDistribution.pcts (v : View) (q : String) : List (Value × Nat × ℚ) :=
  if q ∈ v.cols then
    let ct := SurveyDistribution.countsTotal (v.column q)
    ct.1.map (fun p =>
      (p.1, p.2, if ct.2 = 0 then 0 else 100 * (p.2 : ℚ) / ct.2))
  else []

/-- The row-survival predicate as the spec words it for `apply_filter`:
for a single-answer classification the stringified cell equals the option
exactly; for a multi-answer classification the cell contains the option as
one of its parsed answer tokens; missing cells never match. Stated from
the spec for comparison with the code's mask. -/
def specKeep (isMulti : Bool) (cell : Cell) (opt : String) : Bool :=
  match cell with
  | none => false
  | some v =>
      if isMulti then (specSplit cell).contains opt
      else v.toText == opt

/-- The effective row predicate of one `filter` command over an all-string
view (classification does not change it there): token membership for a
`';'`-containing cell, exact text equality otherwise, never matching a
missing cell; a question that is not a column keeps every row (the command
is a no-op). -/
def keepRow (cols : List String) (qo : String × String) (r : List Cell) : Bool :=
  if qo.1 ∈ cols then optionInMultipleChoice (cellAt r (cols.indexOf qo.1)) qo.2
  else true

/-- Every cell of the view is a string or missing (no numeric cells). -/
def allStr (v : View) : Bool :=
  v.rows.all (fun r => r.all isStrCell)

lemma contains_eq_decide_mem (l : List String) (a : String) :
    l.contains a = decide (a ∈ l) := by
  by_cases hm : a ∈ l
  · simp only [hm, decide_True]
    exact List.elem_iff.mpr hm
  · simp only [hm, decide_False]
    rw [Bool.eq_false_iff]
    exact fun hc => hm (List.elem_iff.mp hc)

lemma optionInMultipleChoice_eq_contains (cell : Cell) (opt : String) :
    optionInMultipleChoice cell opt = (specSplit cell).contains opt := by
  match cell with
  | none => rfl
  | some v =>
    simp only [optionInMultipleChoice, specSplit]
    split
    · rfl
    · rw [Bool.eq_iff_iff, contains_eq_decide_mem]
      simp only [beq_iff_eq, decide_eq_true_eq, List.mem_singleton]
      exact eq_comm

lemma cellEq_eq_decide (cell : Cell) (opt : String) :
    cellEq cell opt = decide (cell = some (Value.str opt)) := by
  match cell with
  | none => rfl
  | some (Value.str s) =>
    show (s == opt) = _
    rw [Bool.eq_iff_iff]
    simp
  | some (Value.num n) => rfl

/-- Claim C9 (corrected): the tokenization of the analyzer
(`_get_multiple_choice_distribution` / `_option_in_multiple_choice`)
matches the stated parser contract exactly: empty sequence for a missing
value, trimmed `';'`-pieces with empty pieces kept when `';'` occurs in
the stringified value, and a single untrimmed stringified value
otherwise. (The `SurveyFilter.apply_filter` variant deviates — see the
counterexample — so the amended claim scopes the contract to the
analyzer's tokenization.) -/
theorem C9_amended : ∀ cell : Cell, splitTokens cell = specSplit cell := by
  intro cell
  match cell with
  | none => rfl
  | some (Value.str s) => rfl
  | some (Value.num n) => simp [splitTokens, specSplit, Value.toText, hasSemi_natStr]

/-- Claim C9 counterexample: for the non-delimited raw value `" A "` the
claimed parser yields the single untrimmed token `" A "`, which does not
contain `"A"`; but the matching used by `SurveyFilter.apply_filter`
(filter.py lines 12-17, cited by the claim) splits and strips
unconditionally, so it matches the option `"A"` — the claim's "no
trimming applied" branch is false of that cited code. -/
theorem C9_cex :
    specSplit (some (Value.str " A ")) = [" A "] ∧
    (specSplit (some (Value.str " A "))).contains "A" = false ∧
    SurveyFilter.matchCell (some (Value.str " A ")) "A" = true := by
  refine ⟨by decide, by decide, by decide⟩

/-- Claim C3 (confirmed): for every view and question among its columns,
`DataLoader.is_multiple_choice` returns true iff some non-missing value of
the column, when stringified, contains the delimiter `';'` (`specIsMulti`
is that condition stated from the spec; over zero rows or an all-missing
column both sides are false). The code inspects only string-typed cells,
which agrees with the stringified condition because a number's rendering
never contains `';'`. -/
theorem C3_classifier (v : View) (q : String) (h : q ∈ v.cols) :
    is_multiple_choice v q = specIsMulti v q := by
  have hf : (fun cell : Cell =>
      match cell with
      | some (Value.str s) => hasSemi s
      | _ => false) = (fun cell : Cell =>
      match cell with
      | some w => hasSemi w.toText
      | none => false) := by
    funext cell
    match cell with
    | none => rfl
    | some (Value.str s) => rfl
    | some (Value.num n) => simpa [Value.toText] using (hasSemi_natStr n).symm
  simp [is_multiple_choice, specIsMulti, h, hf]

def exV3 : View :=
  { cols := ["Age", "Lang"],
    rows := [[some (Value.str "18-24"), some (Value.str "Py;JS")],
             [some (Value.str "25-34"), none]] }

/-- Witness for C3 at a concrete view. -/
theorem C3_witness :
    ("Lang" ∈ exV3.cols) ∧ is_multiple_choice exV3 "Lang" = specIsMulti exV3 "Lang" :=
  ⟨by decide, C3_classifier exV3 "Lang" (by decide)⟩

lemma runStep_original (s : AnalyzerState) (qo : String × String) :
    (runStep s qo).original = s.original := by
  by_cases hq : qo.1 ∈ s.current.cols <;>
    simp [runStep, SurveyAnalyzer.filter_respondents, hq]

/-- Claim C5 (confirmed): after any sequence of `filter` commands the
original view is untouched, and `reset_filters` restores the current view
to the as-loaded original (same rows, same order) and empties the filter
mapping. -/
theorem C5_reset (s : AnalyzerState) (ops : List (String × String)) :
    (runFilters s ops).original = s.original ∧
    SurveyAnalyzer.reset_filters (runFilters s ops) =
      { original := s.original, current := s.original, filters := [] } := by
  have horig : (runFilters s ops).original = s.original := by
    induction ops generalizing s with
    | nil => rfl
    | cons qo rest ih =>
      calc (runFilters (runStep s qo) rest).original
          = (runStep s qo).original := ih (runStep s qo)
        _ = s.original := runStep_original s qo
  exact ⟨horig, by simp [SurveyAnalyzer.reset_filters, horig]⟩

/-- Claim C7 (confirmed): every successful `filter_respondents` call
narrows the current view — the returned count is the new row count and it
is at most the row count before the call. -/
theorem C7_narrowing (s : AnalyzerState) (q opt : String) (n : Nat)
    (s' : AnalyzerState)
    (h : SurveyAnalyzer.filter_respondents s q opt = Except.ok (n, s')) :
    n = s'.current.rows.length ∧
    s'.current.rows.length ≤ s.current.rows.length := by
  by_cases hq : q ∈ s.current.cols
  · simp only [SurveyAnalyzer.filter_respondents, if_pos hq, Except.ok.injEq,
      Prod.mk.injEq] at h
    obtain ⟨hn, hs⟩ := h
    subst hs
    refine ⟨hn.symm, ?_⟩
    dsimp only
    split <;> exact List.length_filter_le _ _
  · simp [SurveyAnalyzer.filter_respondents, if_neg hq] at h

def exV7 : View :=
  { cols := ["Age"],
    rows := [[some (Value.str "18-24")], [some (Value.str "25-34")]] }

def exS7 : AnalyzerState := { original := exV7, current := exV7, filters := [] }

def exS7' : AnalyzerState :=
  { original := exV7,
    current := { cols := ["Age"], rows := [[some (Value.str "25-34")]] },
    filters := [("Age", "25-34")] }

/-- Witness for C7 at a concrete filter call. -/
theorem C7_witness :
    SurveyAnalyzer.filter_respondents exS7 "Age" "25-34" = Except.ok (1, exS7') ∧
    (1 = exS7'.current.rows.length ∧
      exS7'.current.rows.length ≤ exS7.current.rows.length) :=
  ⟨rfl, C7_narrowing exS7 "Age" "25-34" 1 exS7' rfl⟩

/-- Claim C8 (confirmed): on a view with zero rows, `get_distribution` for
any question among the columns does not raise — the division by the zero
row count is never reached — and it returns the empty mapping. -/
theorem C8_empty_view (s : AnalyzerState) (q : String)
    (h0 : s.current.rows = []) (hq : q ∈ s.current.cols) :
    SurveyAnalyzer.get_distribution s q = Except.ok [] := by
  have hcol : s.current.column q = [] := by simp [View.column, h0]
  have hmc : is_multiple_choice s.current q = false := by
    simp [is_multiple_choice, hq, hcol]
  simp [SurveyAnalyzer.get_distribution, hq, hmc, hcol, singleChoiceDist,
    valueCounts]

def exS8 : AnalyzerState :=
  { original := exV7,
    current := { cols := ["Age"], rows := [] },
    filters := [("Age", "99")] }

/-- Witness for C8 at a concrete zero-row view. -/
theorem C8_witness :
    (exS8.current.rows = [] ∧ "Age" ∈ exS8.current.cols) ∧
    SurveyAnalyzer.get_distribution exS8 "Age" = Except.ok [] :=
  ⟨⟨rfl, by decide⟩, C8_empty_view exS8 "Age" rfl (by decide)⟩

/-- Claim C4 counterexample: the question classifier
(`DataLoader.is_multiple_choice`) invoked with a question that is not
among the columns does not fail with `UnknownQuestion` as the claim
states: the source (data_loader.py lines 158-159) returns the ordinary
value `False` instead of raising, as this evaluation shows. -/
theorem C4_cex :
    ("Zzz" ∉ exV7.cols) ∧ is_multiple_choice exV7 "Zzz" = false := by
  refine ⟨by decide, by decide⟩

/-- Claim C4 (corrected): with a question not among the current view's
columns, `filter_respondents` and `get_distribution` fail with
`UnknownQuestion` and leave the current view and active filters unchanged
(the CLI-level step is the identity), but the question classifier instead
returns `false` without failing, and the `SurveyFilter.apply_filter`
variant silently leaves its state unchanged without failing. -/
theorem C4_amended (s : AnalyzerState) (sf : SurveyFilterState)
    (q opt : String) (h : q ∉ s.current.cols) (hf : q ∉ sf.current.cols) :
    SurveyAnalyzer.filter_respondents s q opt =
      Except.error (SurveyError.unknownQuestion q) ∧
    SurveyAnalyzer.get_distribution s q =
      Except.error (SurveyError.unknownQuestion q) ∧
    runStep s (q, opt) = s ∧
    is_multiple_choice s.current q = false ∧
    SurveyFilter.apply_filter sf q opt = sf := by
  refine ⟨?_, ?_, ?_, ?_, ?_⟩
  · simp [SurveyAnalyzer.filter_respondents, h]
  · simp [SurveyAnalyzer.get_distribution, h]
  · simp [runStep, SurveyAnalyzer.filter_respondents, h]
  · simp [is_multiple_choice, h]
  · simp [SurveyFilter.apply_filter, hf]

def exSF4 : SurveyFilterState := { original := exV7, current := exV7, applied := [] }

/-- Witness for the amended C4 at a concrete state and unknown question. -/
theorem C4_witness :
    ("Zz" ∉ exS7.current.cols ∧ "Zz" ∉ exSF4.current.cols) ∧
    (SurveyAnalyzer.filter_respondents exS7 "Zz" "x" =
        Except.error (SurveyError.unknownQuestion "Zz") ∧
      SurveyAnalyzer.get_distribution exS7 "Zz" =
        Except.error (SurveyError.unknownQuestion "Zz") ∧
      runStep exS7 ("Zz", "x") = exS7 ∧
      is_multiple_choice exS7.current "Zz" = false ∧
      SurveyFilter.apply_filter exSF4 "Zz" "x" = exSF4) :=
  ⟨⟨by decide, by decide⟩,
    C4_amended exS7 exSF4 "Zz" "x" (by decide) (by decide)⟩

/-- The row-survival predicate that `filter_respondents` actually
implements, stated spec-style: for a multi-answer classification the cell
contains the option among its parsed tokens; for a single-answer
classification the cell is (non-missing and) a *string* cell whose raw
text equals the option — the pandas `==` mask, which unlike the claim's
"stringified cell value equals the option" never matches a numeric cell
against a string option. -/
def amendedKeep (isMulti : Bool) (cell : Cell) (opt : String) : Bool :=
  if isMulti then (specSplit cell).contains opt
  else decide (cell = some (Value.str opt))

def exV2 : View := { cols := ["Age"], rows := [[some (Value.num 25)]] }

def exS2 : AnalyzerState := { original := exV2, current := exV2, filters := [] }

/-- Claim C2 counterexample: a single-answer numeric cell whose
stringified value equals the option is *not* kept by `filter_respondents`
(pandas `==` compares the raw value with the string option), so the
claim's "stringified cell value equals the option exactly" description of
the single-answer path is false of the code. -/
theorem C2_cex :
    is_multiple_choice exV2 "Age" = false ∧
    (Value.num 25).toText = "25" ∧
    SurveyAnalyzer.filter_respondents exS2 "Age" "25" =
      Except.ok (0, { original := exV2,
                      current := { cols := ["Age"], rows := [] },
                      filters := [("Age", "25")] }) :=
  ⟨by decide, by decide, rfl⟩

/-- Claim C2 (corrected): every successful `filter_respondents` call keeps
exactly the rows satisfying `amendedKeep` — token membership of the
option for a multi-answer classification, and raw equality with the
string option (not stringified equality) for a single-answer
classification; rows with a missing cell never survive; and the returned
count is the row count of the resulting view. -/
theorem C2_amended (s : AnalyzerState) (q opt : String) (n : Nat)
    (s' : AnalyzerState)
    (h : SurveyAnalyzer.filter_respondents s q opt = Except.ok (n, s')) :
    s'.current.rows = s.current.rows.filter (fun r =>
      amendedKeep (is_multiple_choice s.current q)
        (cellAt r (s.current.cols.indexOf q)) opt) ∧
    (∀ r ∈ s'.current.rows, cellAt r (s.current.cols.indexOf q) ≠ none) ∧
    n = s'.current.rows.length := by
  by_cases hq : q ∈ s.current.cols
  · simp only [SurveyAnalyzer.filter_respondents, if_pos hq, Except.ok.injEq,
      Prod.mk.injEq] at h
    obtain ⟨hn, hs⟩ := h
    subst hs
    have hrows : (if is_multiple_choice s.current q = true then
          s.current.rows.filter (fun r =>
            optionInMultipleChoice (cellAt r (s.current.cols.indexOf q)) opt)
        else
          s.current.rows.filter (fun r =>
            cellEq (cellAt r (s.current.cols.indexOf q)) opt)) =
        s.current.rows.filter (fun r =>
          amendedKeep (is_multiple_choice s.current q)
            (cellAt r (s.current.cols.indexOf q)) opt) := by
      split
      · next hmc =>
        simp only [amendedKeep, hmc, if_true]
        exact List.filter_congr (fun r _ =>
          optionInMultipleChoice_eq_contains _ opt)
      · next hmc =>
        simp only [Bool.not_eq_true] at hmc
        simp only [amendedKeep, hmc, if_false]
        exact List.filter_congr (fun r _ => cellEq_eq_decide _ opt)
    refine ⟨hrows, ?_, ?_⟩
    · intro r hr
      dsimp only at hr
      rw [hrows] at hr
      have hkeep := (List.mem_filter.mp hr).2
      intro hnone
      rw [hnone] at hkeep
      simp [amendedKeep, specSplit, List.contains, List.elem] at hkeep
    · dsimp only
      exact hn.symm
  · simp [SurveyAnalyzer.filter_respondents, if_neg hq] at h

def exS2w : AnalyzerState := { original := exV7, current := exV7, filters := [] }

/-- Witness for the amended C2 at a concrete filter call. -/
theorem C2_witness :
    SurveyAnalyzer.filter_respondents exS2w "Age" "25-34" = Except.ok (1, exS7') ∧
    (exS7'.current.rows = exS2w.current.rows.filter (fun r =>
        amendedKeep (is_multiple_choice exS2w.current "Age")
          (cellAt r (exS2w.current.cols.indexOf "Age")) "25-34") ∧
      (∀ r ∈ exS7'.current.rows,
        cellAt r (exS2w.current.cols.indexOf "Age") ≠ none) ∧
      1 = exS7'.current.rows.length) :=
  ⟨rfl, C2_amended exS2w "Age" "25-34" 1 exS7' rfl⟩

lemma mem_insertReplace (acc : List (String × DistEntry)) (k : String)
    (e : DistEntry) (p : String × DistEntry) (hp : p ∈ insertReplace acc k e) :
    p ∈ acc ∨ p.2 = e := by
  induction acc with
  | nil =>
    simp only [insertReplace, List.mem_singleton] at hp
    exact Or.inr (by rw [hp])
  | cons q rest ih =>
    simp only [insertReplace] at hp
    split at hp
    · rcases List.mem_cons.mp hp with h | h
      · exact Or.inr (by rw [h])
      · exact Or.inl (List.mem_cons_of_mem _ h)
    · rcases List.mem_cons.mp hp with h | h
      · exact Or.inl (by rw [h]; exact List.mem_cons_self _ _)
      · rcases ih h with h' | h'
        · exact Or.inl (List.mem_cons_of_mem _ h')
        · exact Or.inr h'

lemma foldl_insertReplace_shape (total : Nat) (pairs : List (Value × Nat))
    (acc : List (String × DistEntry))
    (hacc : ∀ p ∈ acc, ∃ c, p.2 = mkEntry c total) :
    ∀ p ∈ pairs.foldl
      (fun a q => insertReplace a q.1.toText (mkEntry q.2 total)) acc,
      ∃ c, p.2 = mkEntry c total := by
  induction pairs generalizing acc with
  | nil => simpa using hacc
  | cons q rest ih =>
    refine ih _ ?_
    intro p hp
    rcases mem_insertReplace _ _ _ _ hp with h | h
    · exact hacc p h
    · exact ⟨q.2, h⟩

lemma singleChoiceDist_shape (cells : List Cell) (total : Nat) :
    ∀ p ∈ singleChoiceDist cells total, ∃ c, p.2 = mkEntry c total := by
  exact foldl_insertReplace_shape total (valueCounts cells) [] (by simp)

lemma multiChoiceDist_shape (cells : List Cell) (total : Nat) :
    ∀ p ∈ multiChoiceDist cells total, ∃ c, p.2 = mkEntry c total := by
  intro p hp
  simp only [multiChoiceDist, List.mem_map] at hp
  obtain ⟨q, _, hq⟩ := hp
  exact ⟨q.2, by rw [← hq]⟩

/-- Claim C1 (corrected): every entry of the mapping returned by the
analyzer's `get_distribution` has
`percentage = round(count / total * 100, 2)` with `total` the row count
of the current (possibly filtered) view — not the number of non-missing
cells and not the sum of token occurrences. (The also-cited
`SurveyDistribution.print_distribution` of distribution.py instead
divides by the sum of token occurrences — see the counterexample — so
the amended claim scopes the row-count denominator to the analyzer.) -/
theorem C1_amended (s : AnalyzerState) (q : String)
    (d : List (String × DistEntry))
    (h : SurveyAnalyzer.get_distribution s q = Except.ok d) :
    ∀ p ∈ d, p.2.percentage =
      pyRound2 ((p.2.count : ℚ) * 100 / (s.current.rows.length : ℚ)) := by
  by_cases hq : q ∈ s.current.cols
  · simp only [SurveyAnalyzer.get_distribution, if_pos hq] at h
    intro p hp
    have hshape : ∃ c, p.2 = mkEntry c (s.current.rows.length) := by
      split at h
      · exact multiChoiceDist_shape _ _ p (by rw [Except.ok.injEq] at h; rw [h]; exact hp)
      · exact singleChoiceDist_shape _ _ p (by rw [Except.ok.injEq] at h; rw [h]; exact hp)
    obtain ⟨c, hc⟩ := hshape
    rw [hc]
    rfl
  · simp [SurveyAnalyzer.get_distribution, if_neg hq] at h

def exV1 : View :=
  { cols := ["Lang"],
    rows := [[some (Value.str "A;B")], [some (Value.str "A")]] }

def exS1 : AnalyzerState := { original := exV1, current := exV1, filters := [] }

/-- Witness for the amended C1 at a concrete multi-answer distribution. -/
theorem C1_witness :
    SurveyAnalyzer.get_distribution exS1 "Lang" =
      Except.ok [("A", mkEntry 2 2), ("B", mkEntry 1 2)] ∧
    ∀ p ∈ [("A", mkEntry 2 2), ("B", mkEntry 1 2)], p.2.percentage =
      pyRound2 ((p.2.count : ℚ) * 100 / (exS1.current.rows.length : ℚ)) :=
  ⟨rfl, C1_amended exS1 "Lang" [("A", mkEntry 2 2), ("B", mkEntry 1 2)] rfl⟩

def exV1c : View := { cols := ["Lang"], rows := [[some (Value.str "A;B")]] }

/-- Claim C1 counterexample: for a one-row view whose single cell is
`"A;B"`, `SurveyDistribution.print_distribution` (distribution.py, cited
by the claim) prints `100 * count / total` with `total = 2`, the sum of
token occurrences, giving `50` for token `A` — while the claim's formula
`round(count / row_count * 100, 2)` gives `100` (the view has one row).
So the claim is false of that cited implementation. -/
theorem C1_cex :
    SurveyDistribution.pcts exV1c "Lang" =
      [(Value.str "A", 1, 100 * (1 : ℚ) / 2), (Value.str "B", 1, 100 * (1 : ℚ) / 2)] ∧
    exV1c.rows.length = 1 ∧
    100 * (1 : ℚ) / 2 ≠ pyRound2 ((1 : ℚ) * 100 / (1 : ℚ)) := by
  refine ⟨rfl, rfl, ?_⟩
  have h : pyRound2 ((1 : ℚ) * 100 / (1 : ℚ)) = 100 := by
    rw [pyRound2]
    norm_num [round_eq]
  rw [h]
  norm_num

lemma valueCounts_count_pos (cells : List Cell) (p : Value × Nat)
    (hp : p ∈ valueCounts cells) : 1 ≤ p.2 := by
  simp only [valueCounts, List.mem_map] at hp
  obtain ⟨v, hv, hvp⟩ := hp
  rw [← hvp]
  exact List.count_pos_iff.mpr (List.mem_dedup.mp hv)

lemma valueCounts_sum (cells : List Cell) :
    ((valueCounts cells).map (fun p => p.2)).sum =
      (cells.filterMap id).length := by
  simp only [valueCounts, List.map_map]
  have : ((fun p : Value × Nat => p.2) ∘ fun v =>
      (v, (cells.filterMap id).count v)) =
      fun v => (cells.filterMap id).count v := rfl
  rw [this]
  exact List.sum_map_count_dedup_eq_length _

lemma insertReplace_fresh (acc : List (String × DistEntry)) (k : String)
    (e : DistEntry) (h : ∀ p ∈ acc, p.1 ≠ k) :
    insertReplace acc k e = acc ++ [(k, e)] := by
  induction acc with
  | nil => rfl
  | cons q rest ih =>
    have hq : q.1 ≠ k := h q (List.mem_cons_self _ _)
    simp only [insertReplace, if_neg hq]
    rw [ih (fun p hp => h p (List.mem_cons_of_mem _ hp))]
    rfl

lemma foldl_insertReplace_nodup (total : Nat) (pairs : List (Value × Nat))
    (acc : List (String × DistEntry))
    (hnd : (pairs.map (fun p => p.1.toText)).Nodup)
    (hdisj : ∀ p ∈ acc, ∀ q ∈ pairs, p.1 ≠ q.1.toText) :
    pairs.foldl (fun a q => insertReplace a q.1.toText (mkEntry q.2 total)) acc =
      acc ++ pairs.map (fun q => (q.1.toText, mkEntry q.2 total)) := by
  induction pairs generalizing acc with
  | nil => simp
  | cons q rest ih =>
    simp only [List.foldl_cons]
    rw [insertReplace_fresh acc q.1.toText (mkEntry q.2 total)
      (fun p hp => hdisj p hp q (List.mem_cons_self _ _))]
    rw [List.map_cons, List.nodup_cons] at hnd
    rw [ih (acc ++ [(q.1.toText, mkEntry q.2 total)]) hnd.2 ?_]
    · simp
    · intro p hp q' hq'
      rcases List.mem_append.mp hp with h | h
      · exact hdisj p h q' (List.mem_cons_of_mem _ hq')
      · have hp1 : p.1 = q.1.toText := by
          simp only [List.mem_singleton] at h
          rw [h]
        rw [hp1]
        exact fun hc => hnd.1 (hc ▸ List.mem_map_of_mem (fun r => r.1.toText) hq')

lemma singleChoiceDist_nodup_eq (cells : List Cell) (total : Nat)
    (hnd : ((valueCounts cells).map (fun p => p.1.toText)).Nodup) :
    singleChoiceDist cells total =
      (valueCounts cells).map (fun q => (q.1.toText, mkEntry q.2 total)) := by
  have := foldl_insertReplace_nodup total (valueCounts cells) [] hnd (by simp)
  simpa [singleChoiceDist] using this

lemma valueCounts_keys_nodup_of_str (cells : List Cell)
    (hstr : cells.all isStrCell = true) :
    ((valueCounts cells).map (fun p => p.1.toText)).Nodup := by
  have hvals : ∀ v ∈ (cells.filterMap id).dedup, ∃ s, v = Value.str s := by
    intro v hv
    have hv' : (some v : Cell) ∈ cells := by
      have := List.mem_dedup.mp hv
      simpa using (List.mem_filterMap.mp this)
    have := (List.all_eq_true.mp hstr) _ hv'
    match v with
    | Value.str s => exact ⟨s, rfl⟩
    | Value.num n => simp [isStrCell] at this
  simp only [valueCounts, List.map_map]
  have hmapeq : ((fun p : Value × Nat => p.1.toText) ∘ fun v =>
      (v, (cells.filterMap id).count v)) = fun v => v.toText := rfl
  rw [hmapeq]
  apply List.Nodup.map_on ?_ (List.nodup_dedup _)
  intro x hx y hy hxy
  obtain ⟨sx, hsx⟩ := hvals x hx
  obtain ⟨sy, hsy⟩ := hvals y hy
  subst hsx; subst hsy
  simpa [Value.toText] using hxy

/-- Claim C10 (corrected): for a single-answer question whose column (in
the current view) holds only string-or-missing cells, the distribution
mapping has only tokens with count at least 1 and its counts sum to the
number of rows with a non-missing cell (hence at most the row-count
denominator). The all-string restriction is forced by the counterexample:
the dict of `_get_single_choice_distribution` is keyed by `str(value)`,
so two distinct raw values with the same rendering overwrite one another
and the sum drops below the number of non-missing cells. -/
theorem C10_amended (s : AnalyzerState) (q : String)
    (hq : q ∈ s.current.cols)
    (hsc : is_multiple_choice s.current q = false)
    (hstr : (s.current.column q).all isStrCell = true)
    (d : List (String × DistEntry))
    (h : SurveyAnalyzer.get_distribution s q = Except.ok d) :
    (∀ p ∈ d, 1 ≤ p.2.count) ∧
    (d.map (fun p => p.2.count)).sum =
      ((s.current.column q).filterMap id).length ∧
    ((s.current.column q).filterMap id).length ≤ s.current.rows.length := by
  simp only [SurveyAnalyzer.get_distribution, if_pos hq, hsc, Bool.false_eq_true,
    if_false, Except.ok.injEq] at h
  have hnd := valueCounts_keys_nodup_of_str (s.current.column q) hstr
  have hd : d = (valueCounts (s.current.column q)).map
      (fun p => (p.1.toText, mkEntry p.2 s.current.rows.length)) := by
    rw [← h, singleChoiceDist_nodup_eq _ _ hnd]
  refine ⟨?_, ?_, ?_⟩
  · intro p hp
    rw [hd] at hp
    simp only [List.mem_map] at hp
    obtain ⟨vc, hvc, hvcp⟩ := hp
    have : p.2.count = vc.2 := by rw [← hvcp]; rfl
    rw [this]
    exact valueCounts_count_pos _ _ hvc
  · rw [hd, List.map_map]
    have : ((fun p : String × DistEntry => p.2.count) ∘ fun p : Value × Nat =>
        (p.1.toText, mkEntry p.2 s.current.rows.length)) =
        fun p : Value × Nat => p.2 := rfl
    rw [this]
    exact valueCounts_sum _
  · calc ((s.current.column q).filterMap id).length
        ≤ (s.current.column q).length := List.length_filterMap_le _ _
      _ = s.current.rows.length := by simp [View.column]

def exV10 : View :=
  { cols := ["Q"], rows := [[some (Value.num 25)], [some (Value.str "25")]] }

def exS10 : AnalyzerState := { original := exV10, current := exV10, filters := [] }

/-- Claim C10 counterexample: the column `[25, "25"]` has no `';'`, so it
classifies single-answer; `value_counts` sees two distinct raw values but
the result dict is keyed by `str(value)`, so both land on the key `"25"`
and one entry overwrites the other. The counts of the returned mapping
sum to 1, not to the 2 rows with a non-missing cell — the claim's sum
equation is false of the code. -/
theorem C10_cex :
    is_multiple_choice exV10 "Q" = false ∧
    SurveyAnalyzer.get_distribution exS10 "Q" =
      Except.ok [("25", mkEntry 1 2)] ∧
    (([("25", mkEntry 1 2)] : List (String × DistEntry)).map
      (fun p => p.2.count)).sum = 1 ∧
    ((exV10.column "Q").filterMap id).length = 2 ∧
    (1 : Nat) ≠ 2 :=
  ⟨by decide, rfl, rfl, by decide, by decide⟩

def exV10w : View :=
  { cols := ["Q"],
    rows := [[some (Value.str "A")], [some (Value.str "A")],
             [some (Value.str "B")], [none]] }

def exS10w : AnalyzerState :=
  { original := exV10w, current := exV10w, filters := [] }

/-- Witness for the amended C10 at a concrete all-string column. -/
theorem C10_witness :
    ("Q" ∈ exS10w.current.cols ∧
      is_multiple_choice exS10w.current "Q" = false ∧
      (exS10w.current.column "Q").all isStrCell = true ∧
      SurveyAnalyzer.get_distribution exS10w "Q" =
        Except.ok [("A", mkEntry 2 4), ("B", mkEntry 1 4)]) ∧
    ((∀ p ∈ [("A", mkEntry 2 4), ("B", mkEntry 1 4)], 1 ≤ p.2.count) ∧
      (([("A", mkEntry 2 4), ("B", mkEntry 1 4)] : List (String × DistEntry)).map
        (fun p => p.2.count)).sum =
        ((exS10w.current.column "Q").filterMap id).length ∧
      ((exS10w.current.column "Q").filterMap id).length ≤
        exS10w.current.rows.length) :=
  ⟨⟨by decide, by decide, by decide, rfl⟩,
    C10_amended exS10w "Q" (by decide) (by decide) (by decide) _ rfl⟩

lemma all_of_perm {α : Type} (l1 l2 : List α) (h : l1.Perm l2) (p : α → Bool) :
    l1.all p = l2.all p := by
  induction h with
  | nil => rfl
  | cons x h ih => simp [List.all_cons, ih]
  | swap x y l => simp [List.all_cons, ← Bool.and_assoc, Bool.and_comm]
  | trans h1 h2 ih1 ih2 => exact ih1.trans ih2

lemma View.ext_eq (v w : View) (hc : v.cols = w.cols) (hr : v.rows = w.rows) :
    v = w := by
  cases v; cases w; simp_all

lemma cellAt_isStr (r : List Cell) (i : Nat) (h : r.all isStrCell = true) :
    isStrCell (cellAt r i) = true := by
  by_cases hi : i < r.length
  · apply List.all_eq_true.mp h
    rw [cellAt, List.getD_eq_getElem?_getD, List.getElem?_eq_getElem hi]
    exact List.getElem_mem hi
  · rw [cellAt, List.getD_eq_getElem?_getD, List.getElem?_eq_none (by omega)]
    rfl

lemma cellEq_eq_oimc (cell : Cell) (opt : String)
    (hstr : isStrCell cell = true)
    (hns : ∀ t, cell = some (Value.str t) → hasSemi t = false) :
    cellEq cell opt = optionInMultipleChoice cell opt := by
  match cell with
  | none => rfl
  | some (Value.str t) =>
    have h := hns t rfl
    simp [cellEq, optionInMultipleChoice, Value.toText, h]
  | some (Value.num n) => simp [isStrCell] at hstr

lemma allStr_filter (v : View) (p : List Cell → Bool) (h : allStr v = true) :
    allStr { cols := v.cols, rows := v.rows.filter p } = true := by
  simp only [allStr, List.all_eq_true] at h ⊢
  exact fun r hr => h r (List.mem_filter.mp hr).1

lemma runStep_normal (s : AnalyzerState) (qo : String × String)
    (h : allStr s.current = true) :
    (runStep s qo).current.cols = s.current.cols ∧
    (runStep s qo).current.rows =
      s.current.rows.filter (keepRow s.current.cols qo) ∧
    allStr (runStep s qo).current = true := by
  by_cases hq : qo.1 ∈ s.current.cols
  · have hmask : (if is_multiple_choice s.current qo.1 = true then
          s.current.rows.filter (fun r =>
            optionInMultipleChoice (cellAt r (s.current.cols.indexOf qo.1)) qo.2)
        else s.current.rows.filter (fun r =>
            cellEq (cellAt r (s.current.cols.indexOf qo.1)) qo.2)) =
        s.current.rows.filter (keepRow s.current.cols qo) := by
      split
      · exact List.filter_congr (fun r hr => by simp [keepRow, hq])
      · next hmc =>
        rw [Bool.not_eq_true] at hmc
        refine List.filter_congr (fun r hr => ?_)
        have hstr_r : r.all isStrCell = true :=
          List.all_eq_true.mp h r hr
        have hcell := cellAt_isStr r (s.current.cols.indexOf qo.1) hstr_r
        have hsemi : ∀ t,
            cellAt r (s.current.cols.indexOf qo.1) = some (Value.str t) →
            hasSemi t = false := by
          intro t ht
          simp only [is_multiple_choice, if_pos hq, View.column] at hmc
          have hmem : cellAt r (s.current.cols.indexOf qo.1) ∈
              s.current.rows.map (fun r' =>
                cellAt r' (s.current.cols.indexOf qo.1)) :=
            List.mem_map_of_mem _ hr
          have := List.any_eq_false.mp hmc _ hmem
          rw [ht] at this
          simpa using this
        rw [keepRow, if_pos hq]
        exact cellEq_eq_oimc _ _ hcell hsemi
    have hcur : (runStep s qo).current =
        { cols := s.current.cols,
          rows := s.current.rows.filter (keepRow s.current.cols qo) } := by
      simp only [runStep, SurveyAnalyzer.filter_respondents, if_pos hq]
      rw [View.mk.injEq]
      exact ⟨rfl, hmask⟩
    refine ⟨by rw [hcur], by rw [hcur], ?_⟩
    rw [hcur]
    exact allStr_filter s.current _ h
  · have hstep : runStep s qo = s := by
      simp [runStep, SurveyAnalyzer.filter_respondents, hq]
    rw [hstep]
    refine ⟨rfl, ?_, h⟩
    exact (List.filter_eq_self.mpr (fun r _ => by simp [keepRow, hq])).symm

lemma runFilters_normal (s : AnalyzerState) (ops : List (String × String))
    (h : allStr s.current = true) :
    (runFilters s ops).current.cols = s.current.cols ∧
    (runFilters s ops).current.rows =
      s.current.rows.filter (fun r =>
        ops.all (fun qo => keepRow s.current.cols qo r)) ∧
    allStr (runFilters s ops).current = true := by
  induction ops generalizing s with
  | nil =>
    refine ⟨rfl, ?_, h⟩
    exact (List.filter_eq_self.mpr (fun r _ => by simp)).symm
  | cons qo rest ih =>
    obtain ⟨hc1, hr1, ha1⟩ := runStep_normal s qo h
    obtain ⟨hc2, hr2, ha2⟩ := ih (runStep s qo) ha1
    refine ⟨hc2.trans hc1, ?_, ha2⟩
    show (runFilters (runStep s qo) rest).current.rows = _
    rw [hr2, hc1, hr1, List.filter_filter]
    refine List.filter_congr (fun r hr => ?_)
    rw [List.all_cons]
    exact Bool.and_comm _ _

/-- Claim C6 (corrected): over a view whose cells are all strings (or
missing), applying filter pairs on distinct questions in any order yields
the same final current view. The all-string restriction is forced by the
counterexample: with a numeric cell, filtering in a different order can
change the per-call classification of a question (it is recomputed
against the already-narrowed view), and the single-answer mask (raw
pandas `==`) and multi-answer mask (stringified token membership) differ
on numeric cells, so the final views can differ. -/
theorem C6_amended (s : AnalyzerState) (ops1 ops2 : List (String × String))
    (hstr : allStr s.current = true) (hperm : ops1.Perm ops2)
    (hnd : (ops1.map Prod.fst).Nodup) :
    (runFilters s ops1).current = (runFilters s ops2).current := by
  obtain ⟨hc1, hr1, _⟩ := runFilters_normal s ops1 hstr
  obtain ⟨hc2, hr2, _⟩ := runFilters_normal s ops2 hstr
  refine View.ext_eq _ _ (hc1.trans hc2.symm) ?_
  rw [hr1, hr2]
  exact List.filter_congr (fun r _ => all_of_perm _ _ hperm _)

def exV6 : View :=
  { cols := ["Q1", "Q2"],
    rows := [[some (Value.num 25), some (Value.str "keep")],
             [some (Value.str "X;Y"), some (Value.str "drop")]] }

def exS6 : AnalyzerState := { original := exV6, current := exV6, filters := [] }

/-- Claim C6 counterexample: two filter pairs on the distinct questions
`Q1` and `Q2` of a two-row view, applied in the two possible orders,
produce different final views. Filtering `Q2` first removes the only
`';'`-containing `Q1` cell, so `Q1` then classifies single-answer and its
numeric cell `25` fails the pandas `==` comparison with `"25"` (empty
result); filtering `Q1` first classifies it multi-answer, where `25`
matches `"25"` by stringified comparison (one surviving row). -/
theorem C6_cex :
    ("Q1" ∈ exV6.cols ∧ "Q2" ∈ exV6.cols ∧ ("Q1" : String) ≠ "Q2") ∧
    ([("Q2", "keep"), ("Q1", "25")] : List (String × String)).Perm
      [("Q1", "25"), ("Q2", "keep")] ∧
    (runFilters exS6 [("Q2", "keep"), ("Q1", "25")]).current.rows = [] ∧
    (runFilters exS6 [("Q1", "25"), ("Q2", "keep")]).current.rows =
      [[some (Value.num 25), some (Value.str "keep")]] :=
  ⟨⟨by decide, by decide, by decide⟩, by decide, by decide, by decide⟩

def exV6w : View :=
  { cols := ["Q1", "Q2"],
    rows := [[some (Value.str "a;b"), some (Value.str "x")],
             [some (Value.str "a"), some (Value.str "y")],
             [none, some (Value.str "x")]] }

def exS6w : AnalyzerState := { original := exV6w, current := exV6w, filters := [] }

/-- Witness for the amended C6 at a concrete all-string view. -/
theorem C6_witness :
    (allStr exS6w.current = true ∧
      ([("Q1", "a"), ("Q2", "x")] : List (String × String)).Perm
        [("Q2", "x"), ("Q1", "a")] ∧
      (([("Q1", "a"), ("Q2", "x")] : List (String × String)).map
        Prod.fst).Nodup) ∧
    (runFilters exS6w [("Q1", "a"), ("Q2", "x")]).current =
      (runFilters exS6w [("Q2", "x"), ("Q1", "a")]).current :=
  ⟨⟨by decide, by decide, by decide⟩,
    C6_amended exS6w [("Q1", "a"), ("Q2", "x")] [("Q2", "x"), ("Q1", "a")]
      (by decide) (by decide) (by decide)⟩
